import Mathlib

/-!
Shallow embedding of the asset-resolution logic of `litestar-react`
(`src/litestar_react/controller.py` and `src/starlite_react/controller.py`).

File contents are modelled as byte lists (`Bytes`); Python `str.encode("utf-8")`
is modelled by `encodeUtf8` (the standard UTF-8 encoding); Python
`bytes.replace` by `bytesReplace`.  POSIX paths are modelled as strings;
`pathlib`'s `/` join (where an absolute right operand replaces the left) by
`pathJoin`; the operating system's resolution of `.`/`..`/empty segments at
`open`/`is_file` time by `resolvePath`.  The filesystem is a read-only map
from canonical absolute paths to file contents (directories and symlinks are
not modelled; a path maps to `some` bytes exactly when it is a regular file).
String primitives are implemented structurally over `String.data` so that all
definitions evaluate on concrete inputs.
-/

abbrev Bytes := List Nat

/-- Standard UTF-8 encoding of one code point, as byte values. -/
def utf8EncodeCharNat (c : Char) : List Nat :=
  let n := c.toNat
  if n < 0x80 then [n]
  else if n < 0x800 then [0xC0 ||| (n >>> 6), 0x80 ||| (n &&& 0x3F)]
  else if n < 0x10000 then
    [0xE0 ||| (n >>> 12), 0x80 ||| ((n >>> 6) &&& 0x3F), 0x80 ||| (n &&& 0x3F)]
  else
    [0xF0 ||| (n >>> 18), 0x80 ||| ((n >>> 12) &&& 0x3F),
     0x80 ||| ((n >>> 6) &&& 0x3F), 0x80 ||| (n &&& 0x3F)]

/-- Python `s.encode("utf-8")`. -/
def encodeUtf8 (s : String) : Bytes :=
  (s.data.map utf8EncodeCharNat).flatten

/-- Python `bytes.replace` for an empty pattern: the replacement is inserted
before every byte and at the end (`b"ab".replace(b"", b"-") == b"-a-b-"`). -/
def interleaveRep (rep : Bytes) : Bytes → Bytes
  | [] => rep
  | c :: cs => rep ++ c :: interleaveRep rep cs

/-- Scanner for Python `bytes.replace` with a non-empty pattern: leftmost,
non-overlapping occurrences of `pat` are replaced by `rep`, scanning left to
right.  `fuel` bounds the number of scan steps; since every step consumes at
least one input byte, `fuel = s.length` always suffices (structural recursion
on the fuel keeps the definition kernel-evaluable). -/
def replaceFuel (pat rep : Bytes) : Nat → Bytes → Bytes
  | _, [] => []
  | 0, s => s
  | fuel + 1, c :: cs =>
    if pat.isPrefixOf (c :: cs) then
      rep ++ replaceFuel pat rep fuel (cs.drop (pat.length - 1))
    else
      c :: replaceFuel pat rep fuel cs

/-- Python `bytes.replace` for a non-empty pattern. -/
def bytesReplaceNE (pat rep s : Bytes) : Bytes :=
  replaceFuel pat rep s.length s

/-- Python `bytes.replace s pat rep`. -/
def bytesReplace (s pat rep : Bytes) : Bytes :=
  if pat.isEmpty then interleaveRep rep s else bytesReplaceNE pat rep s

/-- Predicate `occursIn pat s` is true when `pat` occurs contiguously in `s`
(Python `pat in s` on bytes). -/
def occursIn (pat : Bytes) : Bytes → Bool
  | [] => pat.isEmpty
  | c :: cs => pat.isPrefixOf (c :: cs) || occursIn pat cs

/-- Split a character list at every occurrence of `sep` (Python
`str.split(sep)` for a one-character separator). -/
def splitChars (sep : Char) : List Char → List (List Char)
  | [] => [[]]
  | c :: cs =>
    if c = sep then [] :: splitChars sep cs
    else
      match splitChars sep cs with
      | [] => [[c]]
      | h :: t => (c :: h) :: t

/-- Python `s.split(sep)` for a one-character separator, on strings. -/
def splitOnChar (sep : Char) (s : String) : List String :=
  (splitChars sep s.data).map String.mk

/-- Concatenate with a separator (`sep.join(parts)`). -/
def joinWith (sep : String) : List String → String
  | [] => ""
  | [x] => x
  | x :: xs => x ++ sep ++ joinWith sep xs

def strStartsWith (s pre : String) : Bool :=
  pre.data.isPrefixOf s.data

def strEndsWith (s suf : String) : Bool :=
  suf.data.reverse.isPrefixOf s.data.reverse

/-- Python `s[n:]`. -/
def strDrop (s : String) (n : Nat) : String :=
  String.mk (s.data.drop n)

/-- ASCII lower-casing of one character (as `str.lower` acts on extensions). -/
def lowerChar (c : Char) : Char :=
  if 65 ≤ c.toNat ∧ c.toNat ≤ 90 then Char.ofNat (c.toNat + 32) else c

def strLower (s : String) : String :=
  String.mk (s.data.map lowerChar)

/-- The `pathlib` `/` join on POSIX strings: an absolute right operand replaces
the left operand entirely (`Path("/a") / "/etc" == Path("/etc")`). -/
def pathJoin (base rel : String) : String :=
  if strStartsWith rel "/" then rel
  else if rel = "" then base
  else base ++ "/" ++ rel

/-- One step of POSIX path canonicalisation over segments: empty and `.`
segments are dropped, `..` pops the last segment (at the root it stays put). -/
def resolveStep (acc : List String) (seg : String) : List String :=
  if seg = "" ∨ seg = "." then acc
  else if seg = ".." then acc.dropLast
  else acc ++ [seg]

/-- Canonical absolute form of a path, as the operating system resolves it
when the file is opened or stat'ed (`..`, `.`, doubled slashes collapsed). -/
def resolvePath (p : String) : String :=
  "/" ++ joinWith "/" ((splitOnChar '/' p).foldl resolveStep [])

/-- A read-only filesystem: canonical absolute path to regular-file bytes. -/
abbrev FS := String → Option Bytes

def readFile (fs : FS) (p : String) : Option Bytes :=
  fs (resolvePath p)

/-- Python `Path.is_file()`: the path, once resolved by the OS, is a regular file. -/
def isFile (fs : FS) (p : String) : Bool :=
  (readFile fs p).isSome

/-- Final path component (`pathlib` `Path.name`). -/
def baseName (p : String) : String :=
  match (splitOnChar '/' p).reverse with
  | [] => ""
  | x :: _ => x

/-- Extension of a bare file name (`pathlib` `Path.suffix` /
`os.path.splitext`): the part from the last dot, empty when there is no dot,
when the only dot leads the name (`.bashrc`), or when the dot is trailing. -/
def extOf (name : String) : String :=
  let parts := splitOnChar '.' name
  match parts with
  | [] => ""
  | [_] => ""
  | _ =>
    let last := parts.getLastD ""
    if last = "" then ""
    else if parts.length = 2 ∧ parts.headD "x" = "" then ""
    else "." ++ last

/-- Embedding of `pathlib` `PurePath.is_relative_to(base)` for two absolute paths,
compared segment-wise. -/
def isRelativeTo (p base : String) : Bool :=
  (((splitOnChar '/' base).filter (fun s => s ≠ "")).isPrefixOf
    ((splitOnChar '/' p).filter (fun s => s ≠ "")) : Bool)

/-- Python `str(path)` where `path : Path | None`; `str(None) = "None"`. -/
def strOfOptPath : Option String → String
  | none => "None"
  | some p => p

-- sanity checks of the byte/path model on concrete inputs
example : encodeUtf8 "ab" = [97, 98] := by decide
example : bytesReplace (encodeUtf8 "aabb") (encodeUtf8 "ab") [] = encodeUtf8 "ab" := by decide
example : bytesReplace (encodeUtf8 "ab") [] (encodeUtf8 "-") = encodeUtf8 "-a-b-" := by decide
example : pathJoin "/app/build" "/etc/passwd" = "/etc/passwd" := by decide
example : resolvePath "/app/build/../../etc/secret.html" = "/etc/secret.html" := by decide
example : (strOfOptPath none).data.drop 1 = "one".data := by decide
example : extOf "app.css.map" = ".map" := by decide
example : extOf ".bashrc" = "" := by decide
example : strLower ".CSS" = ".css" := by decide
example : isRelativeTo "/static/js/app.js" "/static" = true := by decide
example : isRelativeTo "/staticx/app.js" "/static" = false := by decide

/-!
## Media-type detection (`get_media_type`, identical in both variants)

`mimetypes.guess_type` is an external stdlib collaborator: it is modelled by
an abstract extension-to-media-type table, queried with the lower-cased last
extension of the file name (as `guess_type` does).  On failure the code raises
`HTTPException(status_code=400)`; an uncaught `OSError` from `open` is
modelled by `oserror` (the framework turns it into a 500).
-/

abbrev MimeTable := String → Option String

inductive ResolveError where
  | notFound
  | httpError (status : Nat) (detail : String)
  | oserror
deriving DecidableEq

structure ResolvedAsset where
  content : Bytes
  media_type : String
  headers : List (String × String)
deriving DecidableEq

/-- Function `get_media_type` (lines 24-39 of `litestar_react/controller.py`, lines
23-38 of `starlite_react/controller.py`): names ending in `.css.map` or
`.js.map` are forced to `application/json`; otherwise the extension table is
consulted and a miss raises `HTTPException` with status 400. -/
def get_media_type (tbl : MimeTable) (path : String) : Except ResolveError String :=
  let name := baseName path
  if strEndsWith name ".css.map" || strEndsWith name ".js.map" then
    Except.ok "application/json"
  else
    match tbl (strLower (extOf name)) with
    | some mt => Except.ok mt
    | none => Except.error (ResolveError.httpError 400 ("unknown media type for " ++ name))

/-- A concrete extension table for witnesses (values as in the test suite). -/
def stdTbl : MimeTable := fun ext =>
  if ext = ".css" then some "text/css; charset=utf-8"
  else if ext = ".html" then some "text/html; charset=utf-8"
  else if ext = ".ico" then some "image/vnd.microsoft.icon"
  else if ext = ".js" then some "application/javascript"
  else if ext = ".json" then some "application/json"
  else if ext = ".map" then some "application/json"
  else if ext = ".png" then some "image/png"
  else if ext = ".svg" then some "image/svg+xml"
  else if ext = ".txt" then some "text/plain; charset=utf-8"
  else none

namespace Litestar

/-- Class-attribute configuration of `BaseReactController`
(`litestar_react/controller.py` lines 42-78).  `None` header lists and empty
lists are both falsy in Python, so both are modelled as `[]`.
`replacement_file_suffixes` is declared by the class (lines 59-62) but is
never consulted by any method. -/
structure BaseReactController where
  directory : String
  default_index : String := "index.html"
  index_file_headers : List (String × String) :=
    [("cache-control", "max-age=0, no-cache, no-store, must-revalidate")]
  replacement_file_suffixes : List String := [".css", ".html", ".js", ".json", ".map"]
  replacement_values : List (String × String) := []
  static_file_path : String := "/static"
  static_file_headers : List (String × String) :=
    [("cache-control", "public, max-age=31536000, immutable")]

/-- Method `BaseReactController.get_file_contents` (lines 80-95): read the raw bytes
and apply every configured replacement, each token and value encoded as
UTF-8, in configuration (insertion) order.  `none` models the uncaught
`OSError` when the file does not exist.  The `lru_cache` decorator caches a
pure function of its arguments and is semantically transparent here. -/
def get_file_contents (cfg : BaseReactController) (fs : FS) (path : String) :
    Option Bytes :=
  (readFile fs path).map (fun content =>
    cfg.replacement_values.foldl
      (fun acc tv => bytesReplace acc (encodeUtf8 tv.1) (encodeUtf8 tv.2)) content)

/-- The joined filesystem path `self.directory / str(path)[1:]` (line 104);
`str(None)[1:] = "one"` when the route matched `/` with no parameter. -/
def requestFilepath (cfg : BaseReactController) (pathOpt : Option String) : String :=
  pathJoin cfg.directory (strDrop (strOfOptPath pathOpt) 1)

/-- Expression `path and path.is_relative_to(self.static_file_path)` (line 105). -/
def isStaticReq (cfg : BaseReactController) (pathOpt : Option String) : Bool :=
  match pathOpt with
  | none => false
  | some p => isRelativeTo p cfg.static_file_path

/-- Shared tail of the handler (lines 120-127): detect the media type of the
(possibly substituted) file path, read and rewrite its contents, and build
the response. -/
def serve (cfg : BaseReactController) (tbl : MimeTable) (fs : FS)
    (filepath : String) (headers : List (String × String)) :
    Except ResolveError ResolvedAsset :=
  match get_media_type tbl filepath with
  | Except.error e => Except.error e
  | Except.ok mt =>
    match get_file_contents cfg fs filepath with
    | none => Except.error ResolveError.oserror
    | some c => Except.ok ⟨c, mt, headers⟩

/-- Handler `BaseReactController.root` (lines 97-127): the catch-all GET handler.
Static requests 404 when the file is missing and carry the static header set
otherwise; app-route requests fall back to `directory / default_index` with
the index header set when the file is missing, and are served with no
additional headers when it exists. -/
def root (cfg : BaseReactController) (tbl : MimeTable) (fs : FS)
    (pathOpt : Option String) : Except ResolveError ResolvedAsset :=
  let filepath := requestFilepath cfg pathOpt
  if isStaticReq cfg pathOpt then
    if isFile fs filepath then serve cfg tbl fs filepath cfg.static_file_headers
    else Except.error ResolveError.notFound
  else
    if isFile fs filepath then serve cfg tbl fs filepath []
    else serve cfg tbl fs (pathJoin cfg.directory cfg.default_index) cfg.index_file_headers

end Litestar

namespace Starlite

/-- Class-attribute configuration of `ReactController`
(`starlite_react/controller.py` lines 41-57). -/
structure ReactController where
  directory : String
  default_index : String := "index.html"
  root_file_suffixes : List String := [".css", ".html", ".js", ".json", ".map"]

/-- Expression `root_path.encode("utf-8") if root_path else b""`: both `None` and the
empty string are falsy. -/
def rootPathBytes : Option String → Bytes
  | none => []
  | some rp => if rp = "" then [] else encodeUtf8 rp

/-- Method `ReactController.get_file_contents` (lines 59-75): read the raw bytes
and, when the path's suffix is in `root_file_suffixes`, replace the literal
token `\x7b\x7bROOT_PATH\x7d\x7d` by the UTF-8-encoded root path.  The
`lru_cache` key is the full argument tuple `(self, path, root_path)`. -/
def get_file_contents (cfg : ReactController) (fs : FS) (path : String)
    (root_path : Option String) : Option Bytes :=
  (readFile fs path).map (fun content =>
    if extOf (baseName path) ∈ cfg.root_file_suffixes then
      bytesReplace content (encodeUtf8 "\x7b\x7bROOT_PATH\x7d\x7d") (rootPathBytes root_path)
    else content)

/-- Handler `ReactController.static_files` (lines 77-86): under `/static`, the file
must exist (hard 404 otherwise); responses carry no additional headers. -/
def static_files (cfg : ReactController) (tbl : MimeTable) (fs : FS)
    (root_path : String) (path : String) : Except ResolveError ResolvedAsset :=
  let filepath := pathJoin (pathJoin cfg.directory "static") (strDrop path 1)
  if isFile fs filepath then
    match get_media_type tbl filepath with
    | Except.error e => Except.error e
    | Except.ok mt =>
      match get_file_contents cfg fs filepath (some root_path) with
      | none => Except.error ResolveError.oserror
      | some c => Except.ok ⟨c, mt, []⟩
  else Except.error ResolveError.notFound

/-- Expression `self.directory / filename if filename else self.directory` (line 92). -/
def rootRequestPath (cfg : ReactController) (filename : Option String) : String :=
  match filename with
  | some f => pathJoin cfg.directory f
  | none => cfg.directory

/-- Handler `ReactController.root_files` (lines 88-100): an app-route request falls
back to `directory / default_index` when the file is missing. -/
def root_files (cfg : ReactController) (tbl : MimeTable) (fs : FS)
    (root_path : String) (filename : Option String) : Except ResolveError ResolvedAsset :=
  let fp0 := rootRequestPath cfg filename
  let filepath := if isFile fs fp0 then fp0 else pathJoin cfg.directory cfg.default_index
  match get_media_type tbl filepath with
  | Except.error e => Except.error e
  | Except.ok mt =>
    match get_file_contents cfg fs filepath (some root_path) with
    | none => Except.error ResolveError.oserror
    | some c => Except.ok ⟨c, mt, []⟩

end Starlite

instance {ε α : Type} [DecidableEq ε] [DecidableEq α] : DecidableEq (Except ε α) := by
  intro x y
  cases x <;> cases y
  case error.error a b =>
    exact if h : a = b then Decidable.isTrue (by rw [h]) else
      Decidable.isFalse (fun hc => by cases hc; exact h rfl)
  case error.ok a b => exact Decidable.isFalse (fun hc => by cases hc)
  case ok.error a b => exact Decidable.isFalse (fun hc => by cases hc)
  case ok.ok a b =>
    exact if h : a = b then Decidable.isTrue (by rw [h]) else
      Decidable.isFalse (fun hc => by cases hc; exact h rfl)

/-!
## Concrete fixtures used by witnesses and counterexamples
-/

def indexBytes : Bytes := encodeUtf8 "<!doctype html>app"

def appJsBytes : Bytes := encodeUtf8 "js\x7b\x7bPUBLIC_URL\x7d\x7d/logo.png"

def secretBytes : Bytes := encodeUtf8 "root:x:0:0"

/-- A small asset tree under `/app/build`, plus a sensitive file outside it. -/
def fs0 : FS := fun p =>
  if p = "/app/build/index.html" then some indexBytes
  else if p = "/app/build/static/js/app.js" then some appJsBytes
  else if p = "/etc/secret.html" then some secretBytes
  else none

def cfg0 : Litestar.BaseReactController := { directory := "/app/build" }

-- sanity checks of the embedded handlers on concrete requests
example :
    Litestar.root cfg0 stdTbl fs0 (some "/static/js/app.js") =
      Except.ok ⟨appJsBytes, "application/javascript",
        [("cache-control", "public, max-age=31536000, immutable")]⟩ := by decide
example :
    Litestar.root cfg0 stdTbl fs0 (some "/static/nope.js") =
      Except.error ResolveError.notFound := by decide
example :
    Litestar.root cfg0 stdTbl fs0 (some "/path1/path2/path3") =
      Except.ok ⟨indexBytes, "text/html; charset=utf-8",
        [("cache-control", "max-age=0, no-cache, no-store, must-revalidate")]⟩ := by decide
example :
    Litestar.root cfg0 stdTbl fs0 none =
      Except.ok ⟨indexBytes, "text/html; charset=utf-8",
        [("cache-control", "max-age=0, no-cache, no-store, must-revalidate")]⟩ := by decide
example :
    Litestar.root cfg0 stdTbl fs0 (some "/index.html") =
      Except.ok ⟨indexBytes, "text/html; charset=utf-8", []⟩ := by decide
-- traversal via `..` segments escapes the asset root and serves the file
example :
    Litestar.root cfg0 stdTbl fs0 (some "/../../etc/secret.html") =
      Except.ok ⟨secretBytes, "text/html; charset=utf-8", []⟩ := by decide
-- a doubled leading slash makes the joined path absolute and escapes as well
example :
    Litestar.root cfg0 stdTbl fs0 (some "//etc/secret.html") =
      Except.ok ⟨secretBytes, "text/html; charset=utf-8", []⟩ := by decide

/-!
## Lemmas about the byte-replacement scanner
-/

theorem isPrefixOf_append_self (p t : Bytes) : p.isPrefixOf (p ++ t) = true := by
  induction p with
  | nil => cases t <;> rfl
  | cons a as ih => simp [List.isPrefixOf, ih]

theorem occursIn_nil_left (s : Bytes) : occursIn [] s = true := by
  cases s <;> simp [occursIn, List.isPrefixOf]

theorem occursIn_append_self (p t : Bytes) : occursIn p (p ++ t) = true := by
  cases p with
  | nil => exact occursIn_nil_left t
  | cons a as => simp [occursIn, isPrefixOf_append_self]

theorem occursIn_cons_of_tail (p : Bytes) (c : Nat) (cs : Bytes)
    (h : occursIn p cs = true) : occursIn p (c :: cs) = true := by
  simp [occursIn, h]

theorem replaceFuel_of_not_occurs (pat rep : Bytes) (fuel : Nat) :
    ∀ s : Bytes, occursIn pat s = false → replaceFuel pat rep fuel s = s := by
  induction fuel with
  | zero => intro s _; cases s <;> rfl
  | succ n ih =>
    intro s h
    cases s with
    | nil => rfl
    | cons c cs =>
      simp only [occursIn, Bool.or_eq_false_iff] at h
      simp only [replaceFuel, h.1, Bool.false_eq_true, if_false]
      rw [ih cs h.2]

theorem occursIn_rep_replaceFuel (pat rep : Bytes) (hpat : pat ≠ []) (fuel : Nat) :
    ∀ s : Bytes, s.length ≤ fuel → occursIn pat s = true →
      occursIn rep (replaceFuel pat rep fuel s) = true := by
  induction fuel with
  | zero =>
    intro s hlen hocc
    have hs : s = [] := List.length_eq_zero.mp (Nat.le_zero.mp hlen)
    subst hs
    simp [occursIn, List.isEmpty_iff] at hocc
    exact absurd hocc hpat
  | succ n ih =>
    intro s hlen hocc
    cases s with
    | nil =>
      simp [occursIn, List.isEmpty_iff] at hocc
      exact absurd hocc hpat
    | cons c cs =>
      by_cases hp : pat.isPrefixOf (c :: cs) = true
      · simp only [replaceFuel, hp, if_true]
        exact occursIn_append_self rep _
      · have hp' : pat.isPrefixOf (c :: cs) = false := by
          cases hb : pat.isPrefixOf (c :: cs)
          · rfl
          · exact absurd hb hp
        have hocc' : occursIn pat cs = true := by
          simp only [occursIn, hp', Bool.false_or] at hocc
          exact hocc
        have hlen' : cs.length ≤ n := by
          simp only [List.length_cons] at hlen
          omega
        simp only [replaceFuel, hp', Bool.false_eq_true, if_false]
        exact occursIn_cons_of_tail rep c _ (ih cs hlen' hocc')

theorem bytesReplace_of_not_occurs (s pat rep : Bytes)
    (h : occursIn pat s = false) : bytesReplace s pat rep = s := by
  have hpat : pat.isEmpty = false := by
    cases hp : pat with
    | nil => rw [hp] at h; rw [occursIn_nil_left] at h; cases h
    | cons a as => rfl
  unfold bytesReplace
  rw [hpat]
  simp only [Bool.false_eq_true, if_false]
  exact replaceFuel_of_not_occurs pat rep s.length s h

theorem occursIn_rep_bytesReplace (s pat rep : Bytes)
    (h : occursIn pat s = true) : occursIn rep (bytesReplace s pat rep) = true := by
  unfold bytesReplace
  cases hp : pat with
  | nil =>
    simp only [List.isEmpty_nil, if_true]
    cases s with
    | nil => simpa using occursIn_append_self rep []
    | cons c cs => exact occursIn_append_self rep _
  | cons a as =>
    simp only [List.isEmpty_cons, Bool.false_eq_true, if_false]
    rw [← hp]
    exact occursIn_rep_replaceFuel pat rep (by rw [hp]; simp) s.length s (Nat.le_refl _)
      h

/-- Applying the whole replacement fold to a file that contains none of the
configured tokens leaves it byte-identical. -/
theorem foldl_replace_of_no_token (rules : List (String × String)) :
    ∀ content : Bytes,
      (∀ tv ∈ rules, occursIn (encodeUtf8 tv.1) content = false) →
      rules.foldl
        (fun acc tv => bytesReplace acc (encodeUtf8 tv.1) (encodeUtf8 tv.2)) content
        = content := by
  induction rules with
  | nil => intro content _; rfl
  | cons r rs ih =>
    intro content h
    have h1 : occursIn (encodeUtf8 r.1) content = false := h r (List.mem_cons_self r rs)
    simp only [List.foldl_cons, bytesReplace_of_not_occurs content _ _ h1]
    exact ih content (fun tv htv => h tv (List.mem_cons_of_mem r htv))

def scfg0 : Starlite.ReactController := { directory := "/app/build" }

/-!
## Branch lemmas for the handlers (shared helpers)
-/

theorem litestar_root_static_missing (cfg : Litestar.BaseReactController)
    (tbl : MimeTable) (fs : FS) (pathOpt : Option String)
    (h1 : Litestar.isStaticReq cfg pathOpt = true)
    (h2 : isFile fs (Litestar.requestFilepath cfg pathOpt) = false) :
    Litestar.root cfg tbl fs pathOpt = Except.error ResolveError.notFound := by
  unfold Litestar.root
  simp only [h1, h2, Bool.false_eq_true, if_false, if_true]

theorem litestar_root_fallback (cfg : Litestar.BaseReactController)
    (tbl : MimeTable) (fs : FS) (pathOpt : Option String)
    (h1 : Litestar.isStaticReq cfg pathOpt = false)
    (h2 : isFile fs (Litestar.requestFilepath cfg pathOpt) = false) :
    Litestar.root cfg tbl fs pathOpt =
      Litestar.serve cfg tbl fs (pathJoin cfg.directory cfg.default_index)
        cfg.index_file_headers := by
  unfold Litestar.root
  simp only [h1, h2, Bool.false_eq_true, if_false]

theorem litestar_root_app_exists (cfg : Litestar.BaseReactController)
    (tbl : MimeTable) (fs : FS) (pathOpt : Option String)
    (h1 : Litestar.isStaticReq cfg pathOpt = false)
    (h2 : isFile fs (Litestar.requestFilepath cfg pathOpt) = true) :
    Litestar.root cfg tbl fs pathOpt =
      Litestar.serve cfg tbl fs (Litestar.requestFilepath cfg pathOpt) [] := by
  unfold Litestar.root
  simp only [h1, h2, Bool.false_eq_true, if_false, if_true]

theorem litestar_serve_ok (cfg : Litestar.BaseReactController)
    (tbl : MimeTable) (fs : FS) (fp : String) (headers : List (String × String))
    (mt : String) (c : Bytes)
    (hmt : get_media_type tbl fp = Except.ok mt)
    (hc : Litestar.get_file_contents cfg fs fp = some c) :
    Litestar.serve cfg tbl fs fp headers = Except.ok ⟨c, mt, headers⟩ := by
  unfold Litestar.serve
  rw [hmt, hc]

theorem litestar_get_file_contents_isSome (cfg : Litestar.BaseReactController)
    (fs : FS) (p : String) (h : isFile fs p = true) :
    ∃ c, Litestar.get_file_contents cfg fs p = some c := by
  unfold isFile at h
  rcases Option.isSome_iff_exists.mp h with ⟨raw, hraw⟩
  refine ⟨cfg.replacement_values.foldl
    (fun acc tv => bytesReplace acc (encodeUtf8 tv.1) (encodeUtf8 tv.2)) raw, ?_⟩
  unfold Litestar.get_file_contents
  rw [hraw]
  rfl

theorem starlite_get_file_contents_isSome (cfg : Starlite.ReactController)
    (fs : FS) (p : String) (rp : Option String) (h : isFile fs p = true) :
    ∃ c, Starlite.get_file_contents cfg fs p rp = some c := by
  unfold isFile at h
  rcases Option.isSome_iff_exists.mp h with ⟨raw, hraw⟩
  refine ⟨if extOf (baseName p) ∈ cfg.root_file_suffixes then
      bytesReplace raw (encodeUtf8 "\x7b\x7bROOT_PATH\x7d\x7d") (Starlite.rootPathBytes rp)
    else raw, ?_⟩
  unfold Starlite.get_file_contents
  rw [hraw]
  rfl

/-!
## Claim theorems
-/

/-- C1: the claim says a request path containing traversal sequences never
resolves to a file outside the asset root.  The code violates this: the
handlers join the request path naively, so `..` segments (reachable e.g. via
percent-encoded dots, which the framework decodes before extracting the path
parameter) and a doubled leading slash (which `pathlib` treats as an absolute
replacement of the root) both resolve outside `directory` and the outside
file's bytes are served with a 200, not the index document and not a
Forbidden/NotFound error.  This theorem evaluates both handlers at such
failing inputs: the resolved path is `/etc/secret.html`, which is not under
the asset root, and its bytes — distinct from the index document — are
returned. -/
theorem claim1_traversal_escapes_root :
    Litestar.root cfg0 stdTbl fs0 (some "/../../etc/secret.html") =
      Except.ok ⟨secretBytes, "text/html; charset=utf-8", []⟩ ∧
    Litestar.root cfg0 stdTbl fs0 (some "//etc/secret.html") =
      Except.ok ⟨secretBytes, "text/html; charset=utf-8", []⟩ ∧
    Starlite.static_files scfg0 stdTbl fs0 "/" "/../../../etc/secret.html" =
      Except.ok ⟨secretBytes, "text/html; charset=utf-8", []⟩ ∧
    resolvePath (Litestar.requestFilepath cfg0 (some "/../../etc/secret.html")) =
      "/etc/secret.html" ∧
    isRelativeTo "/etc/secret.html" cfg0.directory = false ∧
    secretBytes ≠ indexBytes :=
  ⟨by decide, by decide, by decide, by decide, by decide, by decide⟩

/-- C3: a request under the static sub-prefix whose resolved file does not
exist on disk yields `NotFound` (a hard 404) in both variants, with no index
fallback. -/
theorem claim3_static_missing_not_found :
    (∀ (cfg : Litestar.BaseReactController) (tbl : MimeTable) (fs : FS)
        (pathOpt : Option String),
      Litestar.isStaticReq cfg pathOpt = true →
      isFile fs (Litestar.requestFilepath cfg pathOpt) = false →
      Litestar.root cfg tbl fs pathOpt = Except.error ResolveError.notFound) ∧
    (∀ (cfg : Starlite.ReactController) (tbl : MimeTable) (fs : FS) (rp p : String),
      isFile fs (pathJoin (pathJoin cfg.directory "static") (strDrop p 1)) = false →
      Starlite.static_files cfg tbl fs rp p = Except.error ResolveError.notFound) := by
  constructor
  · intro cfg tbl fs pathOpt h1 h2
    exact litestar_root_static_missing cfg tbl fs pathOpt h1 h2
  · intro cfg tbl fs rp p h
    unfold Starlite.static_files
    simp only [h, Bool.false_eq_true, if_false]

theorem claim3_witness :
    Litestar.root cfg0 stdTbl fs0 (some "/static/nope.js") =
      Except.error ResolveError.notFound ∧
    Starlite.static_files scfg0 stdTbl fs0 "/" "/nope.js" =
      Except.error ResolveError.notFound :=
  ⟨claim3_static_missing_not_found.1 cfg0 stdTbl fs0 (some "/static/nope.js")
      (by decide) (by decide),
   claim3_static_missing_not_found.2 scfg0 stdTbl fs0 "/" "/nope.js" (by decide)⟩

/-- C5: a resolved file whose name ends in `.css.map` or `.js.map` gets media
type `application/json`, whatever the generic extension table would say
(the table `tbl` is universally quantified, so the special case overrides
it). -/
theorem claim5_map_files_are_json (tbl : MimeTable) (path : String)
    (h : strEndsWith (baseName path) ".css.map" = true ∨
         strEndsWith (baseName path) ".js.map" = true) :
    get_media_type tbl path = Except.ok "application/json" := by
  unfold get_media_type
  rcases h with h | h <;> simp [h]

theorem claim5_witness :
    (strEndsWith (baseName "/app/build/static/css/app.css.map") ".css.map" = true ∨
     strEndsWith (baseName "/app/build/static/css/app.css.map") ".js.map" = true) ∧
    get_media_type stdTbl "/app/build/static/css/app.css.map" =
      Except.ok "application/json" :=
  ⟨Or.inl (by decide),
   claim5_map_files_are_json stdTbl "/app/build/static/css/app.css.map"
     (Or.inl (by decide))⟩

/-- C8: when the file name is not one of the special-cased `.css.map` /
`.js.map` names and its extension has no entry in the extension table,
media-type determination fails with `HTTPException` status 400 — never a
silent default. -/
theorem claim8_unknown_media_type_errors (tbl : MimeTable) (path : String)
    (h1 : strEndsWith (baseName path) ".css.map" = false)
    (h2 : strEndsWith (baseName path) ".js.map" = false)
    (h3 : tbl (strLower (extOf (baseName path))) = none) :
    get_media_type tbl path =
      Except.error
        (ResolveError.httpError 400 ("unknown media type for " ++ baseName path)) := by
  unfold get_media_type
  simp [h1, h2, h3]

theorem claim8_witness :
    strEndsWith (baseName "/app/build/LICENSE") ".css.map" = false ∧
    strEndsWith (baseName "/app/build/LICENSE") ".js.map" = false ∧
    stdTbl (strLower (extOf (baseName "/app/build/LICENSE"))) = none ∧
    get_media_type stdTbl "/app/build/LICENSE" =
      Except.error
        (ResolveError.httpError 400 ("unknown media type for " ++ "LICENSE")) := by
  refine ⟨by decide, by decide, by decide, ?_⟩
  have h := claim8_unknown_media_type_errors stdTbl "/app/build/LICENSE"
    (by decide) (by decide) (by decide)
  rw [h]
  decide

/-- C10: an app-route (non-static) request whose file exists on disk is
served with an empty additional-header list — neither the no-cache index
header set nor the immutable static header set is attached. -/
theorem claim10_existing_app_file_has_no_headers
    (cfg : Litestar.BaseReactController) (tbl : MimeTable) (fs : FS)
    (pathOpt : Option String)
    (h1 : Litestar.isStaticReq cfg pathOpt = false)
    (h2 : isFile fs (Litestar.requestFilepath cfg pathOpt) = true) :
    ∀ a : ResolvedAsset,
      Litestar.root cfg tbl fs pathOpt = Except.ok a → a.headers = [] := by
  intro a ha
  rw [litestar_root_app_exists cfg tbl fs pathOpt h1 h2] at ha
  unfold Litestar.serve at ha
  cases hmt : get_media_type tbl (Litestar.requestFilepath cfg pathOpt) with
  | error e => rw [hmt] at ha; cases ha
  | ok mt =>
    rw [hmt] at ha
    cases hc : Litestar.get_file_contents cfg fs (Litestar.requestFilepath cfg pathOpt) with
    | none => rw [hc] at ha; cases ha
    | some c =>
      rw [hc] at ha
      cases ha
      rfl

theorem claim10_witness :
    Litestar.isStaticReq cfg0 (some "/index.html") = false ∧
    isFile fs0 (Litestar.requestFilepath cfg0 (some "/index.html")) = true ∧
    (⟨indexBytes, "text/html; charset=utf-8", []⟩ : ResolvedAsset).headers = [] :=
  ⟨by decide, by decide,
   claim10_existing_app_file_has_no_headers cfg0 stdTbl fs0 (some "/index.html")
     (by decide) (by decide) ⟨indexBytes, "text/html; charset=utf-8", []⟩ (by decide)⟩

/-!
## C4: the rewrite gate on file extensions
-/

def pngRaw : Bytes := encodeUtf8 "PNG.\x7b\x7bPUBLIC_URL\x7d\x7d/logo"

def cfg4 : Litestar.BaseReactController :=
  { directory := "/app/build",
    replacement_values := [("\x7b\x7bPUBLIC_URL\x7d\x7d", "/my-app")] }

def fs4 : FS := fun p =>
  if p = "/app/build/img/logo.png" then some pngRaw else none

def pngRawStar : Bytes := encodeUtf8 "PNG.\x7b\x7bROOT_PATH\x7d\x7d/logo"

def fs4s : FS := fun p =>
  if p = "/app/build/img/logo.png" then some pngRawStar else none

/-- C4: the claim says rewrite rules are applied iff the file's extension is
in the configured rewritable-extension set.  The litestar variant declares
`replacement_file_suffixes` but `get_file_contents` never consults it: a
`.png` file — whose extension is not in the set — containing a configured
token is rewritten all the same, so its returned bytes differ from the raw
file.  (The older starlite variant does gate on the suffix set: the same
`.png` file containing the `ROOT_PATH` token is returned byte-identical.) -/
theorem claim4_rewrite_gate_not_enforced :
    (".png" ∉ cfg4.replacement_file_suffixes) ∧
    occursIn (encodeUtf8 "\x7b\x7bPUBLIC_URL\x7d\x7d") pngRaw = true ∧
    Litestar.get_file_contents cfg4 fs4 "/app/build/img/logo.png" =
      some (encodeUtf8 "PNG./my-app/logo") ∧
    encodeUtf8 "PNG./my-app/logo" ≠ pngRaw ∧
    (".png" ∉ scfg0.root_file_suffixes) ∧
    occursIn (encodeUtf8 "\x7b\x7bROOT_PATH\x7d\x7d") pngRawStar = true ∧
    Starlite.get_file_contents scfg0 fs4s "/app/build/img/logo.png" (some "/m") =
      some pngRawStar :=
  ⟨by decide, by decide, by decide, by decide, by decide, by decide, by decide⟩

/-!
## C2 and C7: the app-route index fallback
-/

def noCacheHeaders : List (String × String) :=
  [("cache-control", "max-age=0, no-cache, no-store, must-revalidate")]

/-- C2: a request outside the static sub-prefix whose resolved file does not
exist is answered with the default index document's served content and the
no-cache header set. -/
theorem claim2_app_route_fallback_to_index
    (cfg : Litestar.BaseReactController) (tbl : MimeTable) (fs : FS)
    (pathOpt : Option String)
    (hstatic : Litestar.isStaticReq cfg pathOpt = false)
    (hmiss : isFile fs (Litestar.requestFilepath cfg pathOpt) = false)
    (hhdr : cfg.index_file_headers = noCacheHeaders)
    (c : Bytes)
    (hc : Litestar.get_file_contents cfg fs (pathJoin cfg.directory cfg.default_index)
      = some c)
    (mt : String)
    (hmt : get_media_type tbl (pathJoin cfg.directory cfg.default_index)
      = Except.ok mt) :
    Litestar.root cfg tbl fs pathOpt = Except.ok ⟨c, mt, noCacheHeaders⟩ := by
  rw [litestar_root_fallback cfg tbl fs pathOpt hstatic hmiss]
  rw [litestar_serve_ok cfg tbl fs _ _ mt c hmt hc, hhdr]

theorem claim2_witness :
    Litestar.isStaticReq cfg0 (some "/path1/path2/path3") = false ∧
    isFile fs0 (Litestar.requestFilepath cfg0 (some "/path1/path2/path3")) = false ∧
    Litestar.root cfg0 stdTbl fs0 (some "/path1/path2/path3") =
      Except.ok ⟨indexBytes, "text/html; charset=utf-8", noCacheHeaders⟩ :=
  ⟨by decide, by decide,
   claim2_app_route_fallback_to_index cfg0 stdTbl fs0 (some "/path1/path2/path3")
     (by decide) (by decide) (by decide) indexBytes (by decide)
     "text/html; charset=utf-8" (by decide)⟩

/-- C7: an app-route request whose file does not exist never errors: as long
as the default index document exists with a resolvable media type, both
variants fall back to it and return successfully. -/
theorem claim7_missing_app_file_falls_back
    (tbl : MimeTable) (fs : FS) :
    (∀ (cfg : Litestar.BaseReactController) (pathOpt : Option String) (mt : String),
      Litestar.isStaticReq cfg pathOpt = false →
      isFile fs (Litestar.requestFilepath cfg pathOpt) = false →
      isFile fs (pathJoin cfg.directory cfg.default_index) = true →
      get_media_type tbl (pathJoin cfg.directory cfg.default_index) = Except.ok mt →
      ∃ a : ResolvedAsset, Litestar.root cfg tbl fs pathOpt = Except.ok a) ∧
    (∀ (cfg : Starlite.ReactController) (rp : String) (filename : Option String)
        (mt : String),
      isFile fs (Starlite.rootRequestPath cfg filename) = false →
      isFile fs (pathJoin cfg.directory cfg.default_index) = true →
      get_media_type tbl (pathJoin cfg.directory cfg.default_index) = Except.ok mt →
      ∃ a : ResolvedAsset, Starlite.root_files cfg tbl fs rp filename = Except.ok a) := by
  constructor
  · intro cfg pathOpt mt h1 h2 hix hmt
    rcases litestar_get_file_contents_isSome cfg fs
      (pathJoin cfg.directory cfg.default_index) hix with ⟨c, hc⟩
    refine ⟨⟨c, mt, cfg.index_file_headers⟩, ?_⟩
    rw [litestar_root_fallback cfg tbl fs pathOpt h1 h2]
    exact litestar_serve_ok cfg tbl fs _ _ mt c hmt hc
  · intro cfg rp filename mt hmiss hix hmt
    rcases starlite_get_file_contents_isSome cfg fs
      (pathJoin cfg.directory cfg.default_index) (some rp) hix with ⟨c, hc⟩
    refine ⟨⟨c, mt, []⟩, ?_⟩
    unfold Starlite.root_files
    simp only [hmiss, Bool.false_eq_true, if_false, hmt, hc]

theorem claim7_witness :
    (∃ a : ResolvedAsset,
      Litestar.root cfg0 stdTbl fs0 (some "/dashboard/settings") = Except.ok a) ∧
    (∃ a : ResolvedAsset,
      Starlite.root_files scfg0 stdTbl fs0 "/m" (some "dashboard") = Except.ok a) :=
  ⟨(claim7_missing_app_file_falls_back stdTbl fs0).1 cfg0 (some "/dashboard/settings")
      "text/html; charset=utf-8" (by decide) (by decide) (by decide) (by decide),
   (claim7_missing_app_file_falls_back stdTbl fs0).2 scfg0 "/m" (some "dashboard")
      "text/html; charset=utf-8" (by decide) (by decide) (by decide)⟩

/-!
## C6: token replacement in returned content
-/

def cfg6 : Litestar.BaseReactController :=
  { directory := "/app/build", replacement_values := [("ab", "")] }

def fs6 : FS := fun p =>
  if p = "/app/build/x.html" then some (encodeUtf8 "aabb") else none

/-- C6 counterexample: the claim says the returned content of a rewritable
file containing a configured token never contains the literal token.  But
`bytes.replace` can recreate an occurrence: with the configured rule
`ab -> ""` (an empty replacement value), the rewritable `.html` file `aabb`
contains the token, yet the returned content is `ab` — the literal token
itself.  (Python: `b"aabb".replace(b"ab", b"") == b"ab"`.) -/
theorem claim6_counterexample :
    (extOf (baseName "/app/build/x.html") ∈ cfg6.replacement_file_suffixes) ∧
    occursIn (encodeUtf8 "ab") (encodeUtf8 "aabb") = true ∧
    Litestar.get_file_contents cfg6 fs6 "/app/build/x.html" = some (encodeUtf8 "ab") ∧
    occursIn (encodeUtf8 "ab") (encodeUtf8 "ab") = true :=
  ⟨by decide, by decide, by decide, by decide⟩

/-- C6 (amended): with a single configured rule whose token occurs in the
file, the returned content contains the configured replacement value (each
occurrence is replaced, though a replacement may recreate a literal token,
so token-absence is not guaranteed in general); and a file containing no
configured token is returned byte-identical to the file on disk. -/
theorem claim6_replacement_in_content :
    (∀ (cfg : Litestar.BaseReactController) (fs : FS) (path : String)
        (t v : String) (raw : Bytes),
      cfg.replacement_values = [(t, v)] →
      readFile fs path = some raw →
      occursIn (encodeUtf8 t) raw = true →
      ∃ out, Litestar.get_file_contents cfg fs path = some out ∧
        occursIn (encodeUtf8 v) out = true) ∧
    (∀ (cfg : Litestar.BaseReactController) (fs : FS) (path : String) (raw : Bytes),
      readFile fs path = some raw →
      (∀ tv ∈ cfg.replacement_values, occursIn (encodeUtf8 tv.1) raw = false) →
      Litestar.get_file_contents cfg fs path = some raw) := by
  constructor
  · intro cfg fs path t v raw hrules hraw hocc
    refine ⟨bytesReplace raw (encodeUtf8 t) (encodeUtf8 v), ?_, ?_⟩
    · unfold Litestar.get_file_contents
      rw [hraw, hrules]
      rfl
    · exact occursIn_rep_bytesReplace raw (encodeUtf8 t) (encodeUtf8 v) hocc
  · intro cfg fs path raw hraw hno
    unfold Litestar.get_file_contents
    rw [hraw]
    exact congrArg some (foldl_replace_of_no_token cfg.replacement_values raw hno)

def cfgW : Litestar.BaseReactController :=
  { directory := "/app/build", replacement_values := [("T", "V")] }

def fsW : FS := fun p =>
  if p = "/app/build/y.html" then some (encodeUtf8 "xTy") else none

theorem claim6_witness :
    (∃ out, Litestar.get_file_contents cfgW fsW "/app/build/y.html" = some out ∧
      occursIn (encodeUtf8 "V") out = true) ∧
    Litestar.get_file_contents cfg0 fs0 "/app/build/index.html" = some indexBytes :=
  ⟨claim6_replacement_in_content.1 cfgW fsW "/app/build/y.html" "T" "V"
      (encodeUtf8 "xTy") rfl (by decide) (by decide),
   claim6_replacement_in_content.2 cfg0 fs0 "/app/build/index.html" indexBytes
      (by decide)
      (by intro tv htv; simp [cfg0] at htv)⟩

/-!
## C9: memoization keyed by path and root path

`functools.lru_cache` on `ReactController.get_file_contents` keys every entry
by the full argument tuple — for one controller instance, `(path, root_path)`.
The cache is modelled explicitly as an association list threaded through the
lookups, so that two requests sharing one cache can be examined.
-/

namespace Starlite

abbrev CacheKey := String × Option String

abbrev Cache := List (CacheKey × Bytes)

def cacheLookup (k : CacheKey) : Cache → Option Bytes
  | [] => none
  | (k', v) :: rest => if k = k' then some v else cacheLookup k rest

/-- The `lru_cache` semantics of `get_file_contents` for one controller instance:
on a key hit the memoized bytes are returned unchanged; on a miss the body
runs and, when it returns (rather than raising), its result is memoized under
the key `(path, root_path)`. -/
def get_file_contents_cached (cfg : ReactController) (fs : FS) (cache : Cache)
    (path : String) (root_path : Option String) : Option Bytes × Cache :=
  match cacheLookup (path, root_path) cache with
  | some v => (some v, cache)
  | none =>
    match get_file_contents cfg fs path root_path with
    | some v => (some v, ((path, root_path), v) :: cache)
    | none => (none, cache)

/-- Every memoized entry agrees with the uncached computation at its key. -/
def ValidCache (cfg : ReactController) (fs : FS) (cache : Cache) : Prop :=
  ∀ k v, (k, v) ∈ cache → get_file_contents cfg fs k.1 k.2 = some v

theorem cacheLookup_valid (cfg : ReactController) (fs : FS) (cache : Cache)
    (h : ValidCache cfg fs cache) (k : CacheKey) (v : Bytes)
    (hl : cacheLookup k cache = some v) :
    get_file_contents cfg fs k.1 k.2 = some v := by
  induction cache with
  | nil => cases hl
  | cons e rest ih =>
    obtain ⟨k', v'⟩ := e
    unfold cacheLookup at hl
    by_cases hk : k = k'
    · rw [if_pos hk] at hl
      injection hl with hv
      rw [hk, ← hv]
      exact h k' v' (List.mem_cons_self _ _)
    · rw [if_neg hk] at hl
      exact ih (fun kk vv hmem => h kk vv (List.mem_cons_of_mem _ hmem)) hl

theorem get_file_contents_cached_correct (cfg : ReactController) (fs : FS)
    (cache : Cache) (path : String) (rp : Option String)
    (h : ValidCache cfg fs cache) :
    (get_file_contents_cached cfg fs cache path rp).1 =
      get_file_contents cfg fs path rp ∧
    ValidCache cfg fs (get_file_contents_cached cfg fs cache path rp).2 := by
  unfold get_file_contents_cached
  cases hl : cacheLookup (path, rp) cache with
  | some v =>
    exact ⟨(cacheLookup_valid cfg fs cache h (path, rp) v hl).symm, h⟩
  | none =>
    cases hg : get_file_contents cfg fs path rp with
    | some v =>
      refine ⟨rfl, ?_⟩
      intro k vv hmem
      cases hmem with
      | head => exact hg
      | tail _ hmem' => exact h k vv hmem'
    | none => exact ⟨rfl, h⟩

end Starlite

/-- C9: the memoized content lookup of the root-path variant is keyed by the
file path and the per-request root path together: starting from any valid
cache, a first request computed under `rp1` and a second request for the same
file under `rp2` — served through the cache the first request populated —
each return exactly their own root-path's computation, and the second
request's content carries its own root-path value substituted for the
`ROOT_PATH` token whenever the raw file contains it (never the value cached
under the other prefix). -/
theorem claim9_cache_keyed_by_path_and_root_path
    (cfg : Starlite.ReactController) (fs : FS) (cache : Starlite.Cache)
    (path : String) (rp1 rp2 : Option String)
    (h : Starlite.ValidCache cfg fs cache) :
    (Starlite.get_file_contents_cached cfg fs cache path rp1).1 =
      Starlite.get_file_contents cfg fs path rp1 ∧
    (Starlite.get_file_contents_cached cfg fs
        (Starlite.get_file_contents_cached cfg fs cache path rp1).2 path rp2).1 =
      Starlite.get_file_contents cfg fs path rp2 ∧
    (∀ (raw : Bytes) (r : String),
      readFile fs path = some raw →
      extOf (baseName path) ∈ cfg.root_file_suffixes →
      occursIn (encodeUtf8 "\x7b\x7bROOT_PATH\x7d\x7d") raw = true →
      rp2 = some r → r ≠ "" →
      ∃ out,
        (Starlite.get_file_contents_cached cfg fs
          (Starlite.get_file_contents_cached cfg fs cache path rp1).2 path rp2).1 =
            some out ∧
        occursIn (encodeUtf8 r) out = true) := by
  have h1 := Starlite.get_file_contents_cached_correct cfg fs cache path rp1 h
  have h2 := Starlite.get_file_contents_cached_correct cfg fs
    (Starlite.get_file_contents_cached cfg fs cache path rp1).2 path rp2 h1.2
  refine ⟨h1.1, h2.1, ?_⟩
  intro raw r hraw hsuf hocc hrp hr
  refine ⟨bytesReplace raw (encodeUtf8 "\x7b\x7bROOT_PATH\x7d\x7d") (encodeUtf8 r),
    ?_, ?_⟩
  · rw [h2.1, hrp]
    unfold Starlite.get_file_contents
    rw [hraw]
    simp [Starlite.rootPathBytes, hsuf, hr]
  · exact occursIn_rep_bytesReplace raw _ (encodeUtf8 r) hocc

def fs9 : FS := fun p =>
  if p = "/app/build/index.html" then
    some (encodeUtf8 "A\x7b\x7bROOT_PATH\x7d\x7dB") else none

theorem claim9_witness :
    (Starlite.get_file_contents_cached scfg0 fs9 [] "/app/build/index.html"
      (some "/m1")).1 = Starlite.get_file_contents scfg0 fs9 "/app/build/index.html"
        (some "/m1") ∧
    (Starlite.get_file_contents_cached scfg0 fs9
        (Starlite.get_file_contents_cached scfg0 fs9 [] "/app/build/index.html"
          (some "/m1")).2 "/app/build/index.html" (some "/m2")).1 =
      Starlite.get_file_contents scfg0 fs9 "/app/build/index.html" (some "/m2") ∧
    Starlite.get_file_contents scfg0 fs9 "/app/build/index.html" (some "/m1") =
      some (encodeUtf8 "A/m1B") ∧
    Starlite.get_file_contents scfg0 fs9 "/app/build/index.html" (some "/m2") =
      some (encodeUtf8 "A/m2B") := by
  have h := claim9_cache_keyed_by_path_and_root_path scfg0 fs9 []
    "/app/build/index.html" (some "/m1") (some "/m2")
    (by intro k v hv; cases hv)
  exact ⟨h.1, h.2.1, by decide, by decide⟩
